import Mathlib

/-!
# Verification of the Loki log fetcher (`tools/loki_tools.py`)

Shallow embedding of the `LokiLogFetcher` class. Python side effects on
`self` are modelled by explicit state passing on a `Fetcher` structure;
HTTP traffic is modelled by a finite list of page outcomes that the
recursive `fetch_logs` consumes in order, together with a log of the
request parameters it issued. Timestamps are integers (nanoseconds);
`datetime.strftime` formatting is environment dependent (local time zone),
so it is abstracted as a function parameter `fmt : Int → String`.
-/

namespace Loki

/-- Errors a fetch session can raise: transport failures (`requests.get`),
JSON parse failures (`resp.json()`), and `KeyError` from a missing secret. -/
inductive Err where
  | transport
  | parse
  | keyError
deriving DecidableEq

/-- The mapping returned by `VaultClient(project).get_all_secrets()`.
Modelled from the spec: the secret resolution collaborator (`VaultClient`,
whose code is not part of the sources) returns, for a project/tenant, a
mapping of named secrets that should contain the key `loki_host`. -/
abbrev Secrets := List (String × String)

/-- Python `secrets['loki_host']`-style lookup: first binding of the key. -/
def lookupSecret (s : Secrets) (k : String) : Option String :=
  match s with
  | [] => none
  | (k₀, v) :: rest => if k₀ = k then some v else lookupSecret rest k

/-- `LokiLogFetcher.make_url`: resolves the secret `loki_host` and returns
`f'{loki_host}/loki{api_path}'`; a missing key is a `KeyError`. -/
def make_url (secrets : Secrets) (api_path : String) : Except Err String :=
  match lookupSecret secrets "loki_host" with
  | some loki_host => Except.ok (loki_host ++ "/loki" ++ api_path)
  | none => Except.error Err.keyError

/-- The two supported `data_parse_structure` values (`list` and `dict`). -/
inductive DataParseStructure where
  | list
  | dict
deriving DecidableEq

/-- The accumulated `self._logs`: either an append-ordered `list` of
`(time_ns, message)` pairs, or a `defaultdict(set)` keyed by timestamp.
A Python `set` of messages is modelled as a duplicate-free list in
insertion order; a `dict` is an association list in key-insertion order. -/
inductive Logs where
  | ofList : List (Int × String) → Logs
  | ofDict : List (Int × List String) → Logs
deriving DecidableEq

/-- `set.add`: appends the message unless already present. -/
def setAdd (ms : List String) (m : String) : List String :=
  if m ∈ ms then ms else ms ++ [m]

/-- `self._logs[time_ns].add(message)` on a `defaultdict(set)`. -/
def dictAdd (d : List (Int × List String)) (t : Int) (m : String) :
    List (Int × List String) :=
  match d with
  | [] => [(t, [m])]
  | (t₀, ms) :: rest =>
    if t₀ = t then (t₀, setAdd ms m) :: rest else (t₀, ms) :: dictAdd rest t m

/-- One insertion into `self._logs`, per the active storage policy. -/
def insertLog (L : Logs) (t : Int) (m : String) : Logs :=
  match L with
  | Logs.ofList l => Logs.ofList (l ++ [(t, m)])
  | Logs.ofDict d => Logs.ofDict (dictAdd d t m)

/-- One `result` group of a parsed response: its `values` list of
`[timestamp, message]` pairs (the `int(time_ns)` conversion folded in). -/
abbrev ResultGroup := List (Int × String)

/-- A parsed page response: `response_data['data']['result']`. -/
abbrev Response := List ResultGroup

/-- The body of the inner loop of `_unpack_response`: insert the pair,
bump `length`, update `time_peak`. State is `(logs, length, time_peak)`. -/
def unpackStep (st : Logs × Nat × Int) (v : Int × String) : Logs × Nat × Int :=
  (insertLog st.1 v.1 v.2, st.2.1 + 1, max st.2.2 v.1)

/-- `LokiLogFetcher._unpack_response`: walks every `values` entry of every
`result` group, inserting into `self._logs` and returning the new logs
together with `(length, time_peak)` (where `time_peak` starts at `0`). -/
def _unpack_response (L : Logs) (response_data : Response) : Logs × Nat × Int :=
  response_data.foldl (fun st group => group.foldl unpackStep st) (L, 0, 0)

/-- The state of a `LokiLogFetcher` instance. -/
structure Fetcher where
  url : String
  date_format : String
  query_limit : Nat
  next_chunk_step_ns : Int
  _logs : Logs
  _result : Option (List (String × String))
deriving DecidableEq

/-- The request issued by one `requests.get(self.url, params=params)` call:
the target URL together with the `params` dict. -/
structure Params where
  url : String
  limit : Nat
  direction : String
  start : Int
  query : String
deriving DecidableEq

/-- The outcome of one HTTP page: a parsed JSON body, or a transport/parse
error raised by `requests.get` / `resp.json()`. -/
abbrev PageResult := Except Err Response

/-- `LokiLogFetcher.fetch_logs`. The backend is a finite list of page
outcomes consumed in order (an exhausted backend is a transport failure).
Returns the final fetcher state, the requests issued in order, and the
overall outcome. The recursive call passes only `query` and `start`, so
`fetch_all` and `direction` revert to their defaults `True` / `'forward'`;
`start` of the follow-up is `time_peak + next_chunk_step_ns`. -/
def fetch_logs (f : Fetcher) (pages : List PageResult) (query : String)
    (start : Int) (fetch_all : Bool) (direction : String) :
    Fetcher × List Params × Except Err Unit :=
  let f₀ : Fetcher := { f with _result := none }
  let params : Params :=
    { url := f.url, limit := f.query_limit, direction := direction,
      start := start, query := query }
  match pages with
  | [] => (f₀, [params], Except.error Err.transport)
  | Except.error e :: _ => (f₀, [params], Except.error e)
  | Except.ok resp :: rest =>
    let u := _unpack_response f._logs resp
    let f₁ : Fetcher := { f₀ with _logs := u.1 }
    if fetch_all ∧ u.2.1 = f.query_limit then
      let r := fetch_logs f₁ rest query (u.2.2 + f.next_chunk_step_ns) true "forward"
      (r.1, params :: r.2.1, r.2.2)
    else
      (f₁, [params], Except.ok ())

/-- Stable-enough insertion into a list sorted by an integer key. -/
def insertByKey {α : Type} (key : α → Int) (x : α) : List α → List α
  | [] => [x]
  | y :: ys => if key x < key y then x :: y :: ys else y :: insertByKey key x ys

/-- Python `sorted(·, key=...)`, as an insertion sort by the key. -/
def sortByKey {α : Type} (key : α → Int) : List α → List α
  | [] => []
  | x :: xs => insertByKey key x (sortByKey key xs)

/-- The raw (timestamp, message) pairs underlying the `logs` view, sorted
ascending by timestamp, before date formatting is applied. -/
def rawSorted (L : Logs) : List (Int × String) :=
  match L with
  | Logs.ofList l => sortByKey (fun p => p.1) l
  | Logs.ofDict d =>
    ((sortByKey (fun p => p.1) d).map
      (fun p => p.2.map (fun m => (p.1, m)))).flatten

/-- `datetime.fromtimestamp(t / 1e9).strftime(date_format)` applied to the
first component: formats the raw pair for the `logs` view. -/
def formatted (fmt : Int → String) (p : Int × String) : String × String :=
  (fmt p.1, p.2)

/-- The recomputation branch of the `logs` property: sort the accumulated
entries by raw timestamp ascending and format each timestamp. -/
def computeResult (L : Logs) (fmt : Int → String) : List (String × String) :=
  match L with
  | Logs.ofList l => (sortByKey (fun p => p.1) l).map (formatted fmt)
  | Logs.ofDict d =>
    ((sortByKey (fun p => p.1) d).map
      (fun p => p.2.map (fun m => (fmt p.1, m)))).flatten

/-- The `logs` property: returns `self._result` when it is truthy
(`if not self._result` treats both `None` and `[]` as absent), otherwise
recomputes and caches the sorted formatted view. -/
def logs (f : Fetcher) (fmt : Int → String) :
    List (String × String) × Fetcher :=
  match f._result with
  | some r =>
    if r = [] then
      (computeResult f._logs fmt, { f with _result := some (computeResult f._logs fmt) })
    else (r, f)
  | none =>
    (computeResult f._logs fmt, { f with _result := some (computeResult f._logs fmt) })

/-- Number of (timestamp, message) pairs held by the collection. -/
def pairCount (L : Logs) : Nat :=
  match L with
  | Logs.ofList l => l.length
  | Logs.ofDict d => (d.map (fun p => p.2.length)).sum

/-- Total number of `values` entries across all `result` groups of a page. -/
def valuesCount (resp : Response) : Nat := (resp.map List.length).sum

/-- A `BytesIO` sink: its buffer and cursor position. -/
structure BIO where
  data : List UInt8
  pos : Nat
deriving DecidableEq

/-- `file.write(bs)`: overwrite at the cursor, extending as needed. -/
def writeBytes (b : BIO) (bs : List UInt8) : BIO :=
  { data := b.data.take b.pos ++ bs ++ b.data.drop (b.pos + bs.length),
    pos := b.pos + bs.length }

/-- The bytes `f'{log[0]}\t{log[1]}\n'.encode(enc)` for one log entry. -/
def encodeLine (enc : String → List UInt8) (log : String × String) : List UInt8 :=
  enc (log.1 ++ "\t" ++ log.2 ++ "\n")

/-- `LokiLogFetcher.to_file`: allocate a fresh `BytesIO` when none is given,
write one encoded line per entry of `logs` in order, seek to 0 when
`do_seek`, and return the sink (also the fetcher state, since accessing
`logs` mutates the cache). -/
def to_file (f : Fetcher) (fmt : Int → String) (file : Option BIO)
    (enc : String → List UInt8) (do_seek : Bool) : BIO × Fetcher :=
  let file₀ : BIO := match file with | some b => b | none => ⟨[], 0⟩
  let lr := logs f fmt
  let file₁ := lr.1.foldl (fun b log => writeBytes b (encodeLine enc log)) file₀
  (if do_seek then { file₁ with pos := 0 } else file₁, lr.2)

/-- The empty collection chosen by `__init__` for each policy. -/
def emptyLogs : DataParseStructure → Logs
  | DataParseStructure.list => Logs.ofList []
  | DataParseStructure.dict => Logs.ofDict []

/-- `LokiLogFetcher.__init__`: when `url` is falsy (`None` or the empty
string) it is derived via `make_url` with the default `api_path`; the
supported-structure assertion always passes for the two modelled values. -/
def init (url : Option String) (secrets : Secrets) (date_format : String)
    (query_limit : Nat) (next_chunk_step_ns : Int)
    (data_parse_structure : DataParseStructure) : Except Err Fetcher :=
  let urlE : Except Err String :=
    match url with
    | some u => if u = "" then make_url secrets "/api/v1/query_range" else Except.ok u
    | none => make_url secrets "/api/v1/query_range"
  match urlE with
  | Except.error e => Except.error e
  | Except.ok u =>
    Except.ok
      { url := u, date_format := date_format, query_limit := query_limit,
        next_chunk_step_ns := next_chunk_step_ns,
        _logs := emptyLogs data_parse_structure, _result := none }

/-- `LokiLogFetcher.from_project`: `kwargs.pop('url', None)` discards any
caller-supplied `url` (the parameter below is deliberately unused), derives
the URL from the project's secrets, and constructs the instance with it. -/
def from_project (secrets : Secrets) (_url_kwarg : Option String)
    (date_format : String) (query_limit : Nat) (next_chunk_step_ns : Int)
    (data_parse_structure : DataParseStructure) : Except Err Fetcher :=
  match make_url secrets "/api/v1/query_range" with
  | Except.error e => Except.error e
  | Except.ok u =>
    init (some u) secrets date_format query_limit next_chunk_step_ns
      data_parse_structure

/-! ## Helper lemmas -/

/-- Membership after a keyed insertion: the element is the inserted one or
was already present. -/
lemma mem_insertByKey {α : Type} (key : α → Int) (x : α) (l : List α) (y : α)
    (h : y ∈ insertByKey key x l) : y = x ∨ y ∈ l := by
  induction l with
  | nil =>
    rw [insertByKey] at h
    simp at h
    simp [h]
  | cons z zs ih =>
    rw [insertByKey] at h
    split at h
    · rcases List.mem_cons.mp h with h₁ | h₂
      · exact Or.inl h₁
      · exact Or.inr h₂
    · rcases List.mem_cons.mp h with h₁ | h₂
      · exact Or.inr (List.mem_cons.mpr (Or.inl h₁))
      · rcases ih h₂ with h₃ | h₃
        · exact Or.inl h₃
        · exact Or.inr (List.mem_cons.mpr (Or.inr h₃))

/-- Keyed insertion preserves sortedness by the key. -/
lemma pairwise_insertByKey {α : Type} (key : α → Int) (x : α) (l : List α)
    (h : List.Pairwise (fun a b => key a ≤ key b) l) :
    List.Pairwise (fun a b => key a ≤ key b) (insertByKey key x l) := by
  induction l with
  | nil => simp [insertByKey]
  | cons z zs ih =>
    rcases List.pairwise_cons.mp h with ⟨hz, hzs⟩
    rw [insertByKey]
    split
    · next hlt =>
      refine List.Pairwise.cons ?_ h
      intro b hb
      rcases List.mem_cons.mp hb with h₁ | h₂
      · rw [h₁]; exact le_of_lt hlt
      · exact le_trans (le_of_lt hlt) (hz b h₂)
    · next hnlt =>
      refine List.Pairwise.cons ?_ (ih hzs)
      intro b hb
      rcases mem_insertByKey key x zs b hb with h₁ | h₂
      · rw [h₁]; exact le_of_not_lt hnlt
      · exact hz b h₂

/-- The insertion sort produces a list sorted by the key. -/
lemma pairwise_sortByKey {α : Type} (key : α → Int) (l : List α) :
    List.Pairwise (fun a b => key a ≤ key b) (sortByKey key l) := by
  induction l with
  | nil => simp [sortByKey]
  | cons x xs ih =>
    rw [sortByKey]
    exact pairwise_insertByKey key x _ ih

/-- A reflexive-at-a-point relation holds pairwise on any list. -/
lemma pairwise_of_trivial {β : Type} (R : β → β → Prop) (h : ∀ a b, R a b)
    (l : List β) : List.Pairwise R l := by
  induction l with
  | nil => exact List.Pairwise.nil
  | cons x xs ih => exact List.Pairwise.cons (fun b _ => h x b) ih

/-- The raw pairs underlying the `logs` view are sorted by ascending raw
timestamp, for both storage policies. -/
lemma pairwise_rawSorted (L : Logs) :
    List.Pairwise (fun a b : Int × String => a.1 ≤ b.1) (rawSorted L) := by
  cases L with
  | ofList l => exact pairwise_sortByKey _ l
  | ofDict d =>
    rw [rawSorted, List.pairwise_flatten]
    constructor
    · intro l hl
      rcases List.mem_map.mp hl with ⟨p, hp, hpe⟩
      rw [← hpe, List.pairwise_map]
      exact pairwise_of_trivial _ (fun a b => le_refl p.1) p.2
    · rw [List.pairwise_map]
      refine (pairwise_sortByKey (fun p => p.1) d).imp ?_
      intro p q hpq x hx y hy
      rcases List.mem_map.mp hx with ⟨mx, hmx, hxe⟩
      rcases List.mem_map.mp hy with ⟨my, hmy, hye⟩
      rw [← hxe, ← hye]
      exact hpq

/-- The recomputed `logs` view is the formatted image of the raw sorted
pairs, for both storage policies. -/
lemma computeResult_eq (L : Logs) (fmt : Int → String) :
    computeResult L fmt = (rawSorted L).map (formatted fmt) := by
  cases L with
  | ofList l => rw [computeResult, rawSorted]
  | ofDict d =>
    rw [computeResult, rawSorted, List.map_flatten, List.map_map]
    simp [Function.comp_def, List.map_map, formatted]

/-- `_unpack_response` is a fold of `unpackStep` over the flattened
`values` entries of a page. -/
lemma _unpack_response_eq (L : Logs) (resp : Response) :
    _unpack_response L resp = resp.flatten.foldl unpackStep (L, 0, 0) := by
  rw [_unpack_response, List.foldl_flatten]

/-- The `length` counter of the unpack fold counts every entry walked. -/
lemma foldl_unpackStep_length (vs : List (Int × String)) :
    ∀ (L : Logs) (n : Nat) (t : Int),
      (vs.foldl unpackStep (L, n, t)).2.1 = n + vs.length := by
  induction vs with
  | nil => intro L n t; simp
  | cons v vs ih =>
    intro L n t
    simp only [List.foldl_cons, unpackStep]
    rw [ih]
    simp
    omega

/-- Under the list policy the unpack fold appends the walked entries. -/
lemma foldl_unpackStep_list (vs : List (Int × String)) :
    ∀ (l : List (Int × String)) (n : Nat) (t : Int),
      (vs.foldl unpackStep (Logs.ofList l, n, t)).1 = Logs.ofList (l ++ vs) := by
  induction vs with
  | nil => intro l n t; simp
  | cons v vs ih =>
    intro l n t
    simp only [List.foldl_cons, unpackStep, insertLog]
    rw [ih]
    simp

/-- `set.add` grows the set by at most one element. -/
lemma length_setAdd (ms : List String) (m : String) :
    (setAdd ms m).length ≤ ms.length + 1 := by
  rw [setAdd]
  split
  · omega
  · simp

/-- A dict insertion grows the total message count by at most one. -/
lemma pairCount_dictAdd (d : List (Int × List String)) (t : Int) (m : String) :
    ((dictAdd d t m).map (fun p => p.2.length)).sum ≤
      (d.map (fun p => p.2.length)).sum + 1 := by
  induction d with
  | nil => simp [dictAdd]
  | cons p rest ih =>
    obtain ⟨t₀, ms⟩ := p
    rw [dictAdd]
    split
    · simp only [List.map_cons, List.sum_cons]
      have := length_setAdd ms m
      omega
    · simp only [List.map_cons, List.sum_cons]
      omega

/-- Under the dict policy the unpack fold grows the pair count by at most
the number of walked entries. -/
lemma foldl_unpackStep_dict_le (vs : List (Int × String)) :
    ∀ (d : List (Int × List String)) (n : Nat) (t : Int),
      pairCount ((vs.foldl unpackStep (Logs.ofDict d, n, t)).1) ≤
        pairCount (Logs.ofDict d) + vs.length := by
  induction vs with
  | nil => intro d n t; simp
  | cons v vs ih =>
    intro d n t
    simp only [List.foldl_cons, unpackStep, insertLog]
    have h₁ := ih (dictAdd d v.1 v.2) (n + 1) (max t v.1)
    have h₂ := pairCount_dictAdd d v.1 v.2
    simp only [pairCount, List.length_cons] at h₁ h₂ ⊢
    omega

/-- The set of messages stored for a timestamp (`[]` for absent keys). -/
def msgsAt (d : List (Int × List String)) (t : Int) : List String :=
  match d with
  | [] => []
  | (t₀, ms) :: rest => if t₀ = t then ms else msgsAt rest t

/-- The inserted message lands in the set at its own timestamp. -/
lemma msgsAt_dictAdd_same (d : List (Int × List String)) (t : Int) (m : String) :
    msgsAt (dictAdd d t m) t = setAdd (msgsAt d t) m := by
  induction d with
  | nil => simp [dictAdd, msgsAt, setAdd]
  | cons p rest ih =>
    obtain ⟨t₀, ms⟩ := p
    rw [dictAdd]
    split
    · next he => rw [msgsAt, if_pos he, msgsAt, if_pos he]
    · next he => rw [msgsAt, if_neg he, msgsAt, if_neg he, ih]

/-- Insertion at one timestamp leaves other timestamps untouched. -/
lemma msgsAt_dictAdd_ne (d : List (Int × List String)) (t s : Int) (m : String)
    (h : t ≠ s) : msgsAt (dictAdd d t m) s = msgsAt d s := by
  induction d with
  | nil => simp [dictAdd, msgsAt, h]
  | cons p rest ih =>
    obtain ⟨t₀, ms⟩ := p
    rw [dictAdd]
    split
    · next he =>
      rw [msgsAt, msgsAt]
      have : ¬ t₀ = s := by rw [he]; exact h
      rw [if_neg this, if_neg this]
    · next he => rw [msgsAt, msgsAt, ih]

/-- `set.add` contains the element just added. -/
lemma mem_setAdd_self (ms : List String) (m : String) : m ∈ setAdd ms m := by
  rw [setAdd]
  split
  · next h => exact h
  · simp

/-- `set.add` keeps the elements already present. -/
lemma mem_setAdd_of_mem (ms : List String) (m x : String) (h : x ∈ ms) :
    x ∈ setAdd ms m := by
  rw [setAdd]
  split
  · exact h
  · simp [h]

/-- Adding an element already in the set is a no-op. -/
lemma setAdd_idem (ms : List String) (m : String) :
    setAdd (setAdd ms m) m = setAdd ms m := by
  rw [setAdd, if_pos (mem_setAdd_self ms m)]

/-- Inserting the same (timestamp, message) twice is a no-op on the dict. -/
lemma dictAdd_idem (d : List (Int × List String)) (t : Int) (m : String) :
    dictAdd (dictAdd d t m) t m = dictAdd d t m := by
  induction d with
  | nil => simp [dictAdd, setAdd]
  | cons p rest ih =>
    obtain ⟨t₀, ms⟩ := p
    rw [dictAdd]
    split
    · next he => rw [dictAdd, if_pos he, setAdd_idem]
    · next he => rw [dictAdd, if_neg he, ih]

/-- Writing a chunk list into a sink whose cursor sits at the end appends
all chunks in order and leaves the cursor at the new end. -/
lemma foldl_writeBytes (ls : List (List UInt8)) :
    ∀ b : BIO, b.pos = b.data.length →
      ls.foldl writeBytes b =
        ⟨b.data ++ ls.flatten, b.data.length + ls.flatten.length⟩ := by
  induction ls with
  | nil =>
    intro b hb
    obtain ⟨data, pos⟩ := b
    simp at hb
    simp [hb]
  | cons bs ls ih =>
    intro b hb
    rw [List.foldl_cons]
    have hw : writeBytes b bs = ⟨b.data ++ bs, b.data.length + bs.length⟩ := by
      rw [writeBytes, hb]
      simp [List.drop_eq_nil_of_le]
    rw [hw, ih ⟨b.data ++ bs, b.data.length + bs.length⟩ (by simp)]
    simp
    omega

/-- Every request of a fetch session targets the fetcher's URL. -/
lemma fetch_logs_url_const (pages : List PageResult) :
    ∀ (f : Fetcher) (q : String) (s : Int) (fa : Bool) (d : String),
      ∀ p ∈ (fetch_logs f pages q s fa d).2.1, p.url = f.url := by
  induction pages with
  | nil =>
    intro f q s fa d p hp
    simp [fetch_logs] at hp
    rw [hp]
  | cons pg rest ih =>
    intro f q s fa d p hp
    cases pg with
    | error e =>
      simp [fetch_logs] at hp
      rw [hp]
    | ok resp =>
      rw [fetch_logs] at hp
      simp only at hp
      split at hp
      · rcases List.mem_cons.mp hp with h₁ | h₂
        · rw [h₁]
        · have h₃ := ih _ _ _ _ _ p h₂
          simpa using h₃
      · simp at hp
        rw [hp]

/-! ## Concrete instances used by counterexamples and witnesses -/

/-- A fetcher with the given page limit and collection, step 1. -/
def exFetcher (ql : Nat) (L : Logs) : Fetcher :=
  { url := "http://h/loki/api/v1/query_range", date_format := "%Y-%m-%d %H:%M:%S",
    query_limit := ql, next_chunk_step_ns := 1, _logs := L, _result := none }

/-- A secrets mapping holding only `loki_host`. -/
def exSecrets : Secrets := [("loki_host", "http://h")]

/-- The three-page backend of the spec's pagination example: two full pages
of two entries, then a page of one entry. -/
def pagesC3 : List PageResult :=
  [Except.ok [[(10, "a"), (20, "b")]],
   Except.ok [[(30, "c"), (40, "d")]],
   Except.ok [[(50, "e")]]]

/-- The instance `from_project` builds from `exSecrets`. -/
def exF10 : Fetcher :=
  { url := "http://h/loki/api/v1/query_range", date_format := "%Y",
    query_limit := 5000, next_chunk_step_ns := 1,
    _logs := Logs.ofList [], _result := none }

/-- A list-policy fetcher holding two out-of-order entries. -/
def exF5 : Fetcher := exFetcher 5000 (Logs.ofList [(2, "b"), (1, "a")])

/-! ## Claim theorems -/

/-- Claim C1 (counterexample): a fetch called with direction `backward`
whose first page is full issues its follow-up request with direction
`forward`, because the recursive call passes only `query` and `start` —
the original direction is not preserved as the claim states. -/
theorem fetch_direction_not_preserved :
    ((fetch_logs (exFetcher 1 (Logs.ofList []))
        [Except.ok [[(5, "a")]], Except.ok []] "q" 0 true "backward").2.1.map
      Params.direction) = ["backward", "forward"] ∧
    ("forward" : String) ≠ "backward" := by
  constructor
  · rfl
  · decide

/-- Claim C1 (amended): when a page returns exactly `page_limit` entries and
`follow_pagination` is true, the follow-up fetch is issued with the same
query, with `start = max_timestamp_seen + step_increment_ns`, with the
accumulated entries of the page retained in the state handed to the
recursion — but with the direction reset to the default `forward`, not the
original direction. -/
theorem fetch_pagination_recursion (f : Fetcher) (resp : Response)
    (rest : List PageResult) (q : String) (s : Int) (d : String)
    (h : (_unpack_response f._logs resp).2.1 = f.query_limit) :
    ((fetch_logs f (Except.ok resp :: rest) q s true d).2.1 =
      ⟨f.url, f.query_limit, d, s, q⟩ ::
        (fetch_logs { f with _result := none, _logs := (_unpack_response f._logs resp).1 }
          rest q ((_unpack_response f._logs resp).2.2 + f.next_chunk_step_ns)
          true "forward").2.1)
    ∧ ((fetch_logs f (Except.ok resp :: rest) q s true d).1 =
        (fetch_logs { f with _result := none, _logs := (_unpack_response f._logs resp).1 }
          rest q ((_unpack_response f._logs resp).2.2 + f.next_chunk_step_ns)
          true "forward").1)
    ∧ ((fetch_logs f (Except.ok resp :: rest) q s true d).2.2 =
        (fetch_logs { f with _result := none, _logs := (_unpack_response f._logs resp).1 }
          rest q ((_unpack_response f._logs resp).2.2 + f.next_chunk_step_ns)
          true "forward").2.2) := by
  rw [fetch_logs]
  simp [h]

/-- Claim C1 witness: the amended recursion shape at a concrete full page. -/
theorem fetch_pagination_recursion_witness :
    ((_unpack_response (exFetcher 1 (Logs.ofList []))._logs [[(5, "a")]]).2.1 =
      (exFetcher 1 (Logs.ofList [])).query_limit) ∧
    ((fetch_logs (exFetcher 1 (Logs.ofList [])) [Except.ok [[(5, "a")]]]
        "q" 0 true "backward").2.1 =
      ⟨(exFetcher 1 (Logs.ofList [])).url, (exFetcher 1 (Logs.ofList [])).query_limit,
          "backward", 0, "q"⟩ ::
        (fetch_logs
          { exFetcher 1 (Logs.ofList []) with
            _result := none,
            _logs := (_unpack_response (exFetcher 1 (Logs.ofList []))._logs [[(5, "a")]]).1 }
          [] "q" ((_unpack_response (exFetcher 1 (Logs.ofList []))._logs [[(5, "a")]]).2.2 +
            (exFetcher 1 (Logs.ofList [])).next_chunk_step_ns) true "forward").2.1) :=
  ⟨by decide,
    (fetch_pagination_recursion (exFetcher 1 (Logs.ofList [])) [[(5, "a")]] []
      "q" 0 "backward" (by decide)).1⟩

/-- Claim C2 (counterexample): with `loki_host = "http://h"` the derived URL
is `http://h/loki/api/v1/query_range`, which is not `loki_host` followed
immediately by `/api/v1/query_range`. -/
theorem make_url_inserts_loki_segment :
    make_url [("loki_host", "http://h")] "/api/v1/query_range" =
      Except.ok "http://h/loki/api/v1/query_range" ∧
    ("http://h/loki/api/v1/query_range" : String) ≠
      "http://h" ++ "/api/v1/query_range" := by
  constructor
  · rfl
  · decide

/-- Claim C2 (amended): when no URL is supplied at construction, the URL is
derived by resolving the secret `loki_host` and appending `/loki` followed
by the fixed API path `/api/v1/query_range`; that URL is the one every
fetch request targets, and a missing `loki_host` secret is a hard error. -/
theorem derived_url_shape (secrets : Secrets) (df : String) (ql : Nat)
    (st : Int) (dps : DataParseStructure) :
    (∀ host, lookupSecret secrets "loki_host" = some host →
      ∃ f, init none secrets df ql st dps = Except.ok f ∧
        f.url = host ++ "/loki" ++ "/api/v1/query_range" ∧
        ∀ pages q s fa d p, p ∈ (fetch_logs f pages q s fa d).2.1 →
          p.url = host ++ "/loki" ++ "/api/v1/query_range")
    ∧ (lookupSecret secrets "loki_host" = none →
        init none secrets df ql st dps = Except.error Err.keyError) := by
  constructor
  · intro host hh
    refine ⟨{ url := host ++ "/loki" ++ "/api/v1/query_range", date_format := df,
              query_limit := ql, next_chunk_step_ns := st,
              _logs := emptyLogs dps, _result := none }, ?_, rfl, ?_⟩
    · rw [init]
      simp [make_url, hh]
    · intro pages q s fa d p hp
      exact fetch_logs_url_const pages _ q s fa d p hp
  · intro hh
    rw [init]
    simp [make_url, hh]

/-- Claim C2 witness: the amended URL derivation at a concrete secrets map. -/
theorem derived_url_shape_witness :
    lookupSecret exSecrets "loki_host" = some "http://h" ∧
    (∃ f, init none exSecrets "%Y" 5000 1 DataParseStructure.list = Except.ok f ∧
      f.url = "http://h" ++ "/loki" ++ "/api/v1/query_range" ∧
      ∀ pages q s fa d p, p ∈ (fetch_logs f pages q s fa d).2.1 →
        p.url = "http://h" ++ "/loki" ++ "/api/v1/query_range") :=
  ⟨rfl, (derived_url_shape exSecrets "%Y" 5000 1 DataParseStructure.list).1
    "http://h" rfl⟩

/-- Claim C3: with `page_limit = 2` and a backend serving two full pages of
two entries and then a page of one entry, a single fetch issues exactly 3
requests whose `start` values are `0`, `21`, `41` — the third equals the
maximum timestamp of page 2 (40) plus `step_increment_ns` (1); moreover a
page shorter or longer than `page_limit` stops pagination, as does
`follow_pagination = false`. -/
theorem pagination_request_count (f : Fetcher) (resp : Response)
    (rest pages : List PageResult) (q : String) (s : Int) (d : String)
    (hne : (_unpack_response f._logs resp).2.1 ≠ f.query_limit) :
    ((fetch_logs (exFetcher 2 (Logs.ofList [])) pagesC3 "q" 0 true "forward").2.1.length = 3
      ∧ ((fetch_logs (exFetcher 2 (Logs.ofList [])) pagesC3 "q" 0 true "forward").2.1.map
          Params.start) = [0, 21, 41])
    ∧ (fetch_logs f (Except.ok resp :: rest) q s true d).2.1.length = 1
    ∧ (fetch_logs f pages q s false d).2.1.length = 1 := by
  refine ⟨⟨rfl, rfl⟩, ?_, ?_⟩
  · rw [fetch_logs]
    simp [hne]
  · cases pages with
    | nil => rfl
    | cons pg rest₀ =>
      cases pg with
      | error e => rfl
      | ok resp₀ =>
        rw [fetch_logs]
        simp

/-- Claim C3 witness: a short page stops pagination at a concrete input. -/
theorem pagination_request_count_witness :
    ((_unpack_response (exFetcher 2 (Logs.ofList []))._logs [[(50, "e")]]).2.1 ≠
      (exFetcher 2 (Logs.ofList [])).query_limit) ∧
    (fetch_logs (exFetcher 2 (Logs.ofList [])) [Except.ok [[(50, "e")]]]
      "q" 0 true "forward").2.1.length = 1 :=
  ⟨by decide,
    (pagination_request_count (exFetcher 2 (Logs.ofList [])) [[(50, "e")]] [] []
      "q" 0 "forward" (by decide)).2.1⟩

/-- Claim C4 (counterexample): under the grouped-set policy, a page with two
identical `values` entries adds only one pair to the collection, while the
page holds two `values` entries — the counts differ. -/
theorem grouped_set_added_count_collapses :
    valuesCount [[(1, "a"), (1, "a")]] = 2 ∧
    pairCount ((_unpack_response (Logs.ofDict []) [[(1, "a"), (1, "a")]]).1) = 1 ∧
    pairCount (Logs.ofDict []) = 0 := by
  refine ⟨rfl, ?_, rfl⟩
  rfl

/-- Claim C4 (amended): processing a page walks exactly the `values`
entries of all `result` groups: the returned per-page `length` equals that
count under both policies, and under the ordered-list policy exactly that
many pairs are added to the collection; under the grouped-set policy at
most that many pairs are added, since duplicates at a timestamp collapse. -/
theorem unpack_added_counts :
    (∀ (l : List (Int × String)) (resp : Response),
      pairCount ((_unpack_response (Logs.ofList l) resp).1) =
        pairCount (Logs.ofList l) + valuesCount resp)
    ∧ (∀ (L : Logs) (resp : Response),
        (_unpack_response L resp).2.1 = valuesCount resp)
    ∧ (∀ (d : List (Int × List String)) (resp : Response),
        pairCount ((_unpack_response (Logs.ofDict d) resp).1) ≤
          pairCount (Logs.ofDict d) + valuesCount resp) := by
  have hv : ∀ resp : Response, valuesCount resp = resp.flatten.length := by
    intro resp
    rw [valuesCount, List.length_flatten]
  refine ⟨?_, ?_, ?_⟩
  · intro l resp
    rw [_unpack_response_eq, foldl_unpackStep_list, hv]
    simp [pairCount]
  · intro L resp
    rw [_unpack_response_eq, foldl_unpackStep_length, hv]
    omega
  · intro d resp
    rw [_unpack_response_eq, hv]
    exact foldl_unpackStep_dict_le resp.flatten d 0 0

/-- Claim C5: the `logs` view computed after a fetch (cache empty) is the
ascending-by-raw-timestamp ordering of the accumulated entries with the
timestamps formatted, and that underlying raw sequence is sorted, for both
storage policies. -/
theorem logs_view_sorted (f : Fetcher) (fmt : Int → String)
    (h : f._result = none) :
    (logs f fmt).1 = (rawSorted f._logs).map (formatted fmt)
    ∧ List.Pairwise (fun a b : Int × String => a.1 ≤ b.1) (rawSorted f._logs) := by
  constructor
  · simp only [logs, h]
    exact computeResult_eq f._logs fmt
  · exact pairwise_rawSorted f._logs

/-- Claim C5 witness: the sorted view at a concrete out-of-order state. -/
theorem logs_view_sorted_witness :
    exF5._result = none ∧
    (logs exF5 (fun t => toString t)).1 =
      (rawSorted exF5._logs).map (formatted (fun t => toString t)) :=
  ⟨rfl, (logs_view_sorted exF5 (fun t => toString t) rfl).1⟩

/-- Claim C6: under the grouped-set policy, inserting an identical
(timestamp, message) pair twice collapses to a single insertion; two
different messages at the same timestamp both appear; the same message at
two different timestamps appears at both; under the ordered-list policy a
duplicate insertion keeps both copies. -/
theorem storage_policy_dedup (d : List (Int × List String))
    (l : List (Int × String)) (t s : Int) (m m₀ : String)
    (_hm : m ≠ m₀) (ht : t ≠ s) :
    (insertLog (insertLog (Logs.ofDict d) t m) t m = insertLog (Logs.ofDict d) t m)
    ∧ (m ∈ msgsAt (dictAdd (dictAdd d t m) t m₀) t ∧
        m₀ ∈ msgsAt (dictAdd (dictAdd d t m) t m₀) t)
    ∧ (m ∈ msgsAt (dictAdd (dictAdd d t m) s m) t ∧
        m ∈ msgsAt (dictAdd (dictAdd d t m) s m) s)
    ∧ (insertLog (insertLog (Logs.ofList l) t m) t m =
        Logs.ofList (l ++ [(t, m), (t, m)])) := by
  refine ⟨?_, ⟨?_, ?_⟩, ⟨?_, ?_⟩, ?_⟩
  · simp only [insertLog, dictAdd_idem]
  · rw [msgsAt_dictAdd_same, msgsAt_dictAdd_same]
    exact mem_setAdd_of_mem _ _ _ (mem_setAdd_self _ m)
  · rw [msgsAt_dictAdd_same]
    exact mem_setAdd_self _ m₀
  · rw [msgsAt_dictAdd_ne _ s t m (fun he => ht he.symm), msgsAt_dictAdd_same]
    exact mem_setAdd_self _ m
  · rw [msgsAt_dictAdd_same]
    exact mem_setAdd_self _ m
  · rw [insertLog, insertLog]
    simp

/-- Claim C6 witness: the dedup behaviour at concrete entries. -/
theorem storage_policy_dedup_witness :
    ("a" : String) ≠ "b" ∧ (1 : Int) ≠ 2 ∧
    (insertLog (insertLog (Logs.ofDict []) 1 "a") 1 "a" =
      insertLog (Logs.ofDict []) 1 "a") ∧
    ("a" ∈ msgsAt (dictAdd (dictAdd [] 1 "a") 1 "b") 1 ∧
      "b" ∈ msgsAt (dictAdd (dictAdd [] 1 "a") 1 "b") 1) :=
  ⟨by decide, by decide,
    (storage_policy_dedup [] [] 1 2 "a" "b" (by decide) (by decide)).1,
    (storage_policy_dedup [] [] 1 2 "a" "b" (by decide) (by decide)).2.1⟩

/-- Claim C7: a page that fails (transport error or malformed body) makes
the whole fetch return that error with no retry, leaving the collection
unchanged; when the failing page follows a successful full page, the
entries accumulated from the successful page remain in the collection and
the error still propagates. -/
theorem errors_propagate_state_retained (f : Fetcher) (e : Err)
    (rest : List PageResult) (resp : Response) (q : String) (s : Int)
    (fa : Bool) (d : String)
    (h : (_unpack_response f._logs resp).2.1 = f.query_limit) :
    ((fetch_logs f (Except.error e :: rest) q s fa d).1._logs = f._logs
      ∧ (fetch_logs f (Except.error e :: rest) q s fa d).2.2 = Except.error e)
    ∧ ((fetch_logs f [Except.ok resp, Except.error e] q s true d).1._logs =
          (_unpack_response f._logs resp).1
      ∧ (fetch_logs f [Except.ok resp, Except.error e] q s true d).2.2 =
          Except.error e) := by
  refine ⟨⟨rfl, rfl⟩, ?_, ?_⟩ <;>
    · rw [fetch_logs]
      simp [h, fetch_logs]

/-- Claim C7 witness: error propagation with retention at a concrete run. -/
theorem errors_propagate_state_retained_witness :
    ((_unpack_response (exFetcher 1 (Logs.ofList []))._logs [[(5, "a")]]).2.1 =
      (exFetcher 1 (Logs.ofList [])).query_limit) ∧
    (fetch_logs (exFetcher 1 (Logs.ofList []))
        [Except.ok [[(5, "a")]], Except.error Err.parse] "q" 0 true "forward").1._logs =
      (_unpack_response (exFetcher 1 (Logs.ofList []))._logs [[(5, "a")]]).1 :=
  ⟨by decide,
    (errors_propagate_state_retained (exFetcher 1 (Logs.ofList [])) Err.parse []
      [[(5, "a")]] "q" 0 true "forward" (by decide)).2.1⟩

/-- Claim C8: `to_file` writes exactly one encoded line
`"{formatted_timestamp}\t{message}\n"` per entry of `logs`, in order, into
the sink: into a caller-supplied sink whose cursor is at its end it appends
their concatenation, and a fresh sink ends up holding exactly that
concatenation; with `do_seek` the cursor is repositioned to 0 (so reading
back yields the lines in order), otherwise it rests past the last byte
written. -/
theorem to_file_round_trip (f : Fetcher) (fmt : Int → String)
    (enc : String → List UInt8) (b : BIO) (hb : b.pos = b.data.length) :
    ((to_file f fmt (some b) enc true).1 =
        ⟨b.data ++ ((logs f fmt).1.map (encodeLine enc)).flatten, 0⟩)
    ∧ ((to_file f fmt none enc true).1 =
        ⟨((logs f fmt).1.map (encodeLine enc)).flatten, 0⟩)
    ∧ ((to_file f fmt (some b) enc false).1 =
        ⟨b.data ++ ((logs f fmt).1.map (encodeLine enc)).flatten,
          b.data.length + (((logs f fmt).1.map (encodeLine enc)).flatten).length⟩) := by
  have key : ∀ b₀ : BIO, b₀.pos = b₀.data.length →
      ((logs f fmt).1.foldl (fun b₁ log => writeBytes b₁ (encodeLine enc log)) b₀) =
        ⟨b₀.data ++ ((logs f fmt).1.map (encodeLine enc)).flatten,
          b₀.data.length + (((logs f fmt).1.map (encodeLine enc)).flatten).length⟩ := by
    intro b₀ hb₀
    rw [← List.foldl_map (encodeLine enc) writeBytes]
    exact foldl_writeBytes _ b₀ hb₀
  refine ⟨?_, ?_, ?_⟩
  · rw [to_file]
    simp only [key b hb]
    simp
  · rw [to_file]
    simp only [key ⟨[], 0⟩ rfl]
    simp
  · rw [to_file]
    simp only [key b hb]
    simp

/-- Claim C8 witness: the written sink at a concrete one-entry collection. -/
theorem to_file_round_trip_witness :
    ((⟨[], 0⟩ : BIO).pos = (⟨[], 0⟩ : BIO).data.length) ∧
    (to_file (exFetcher 1 (Logs.ofList [(0, "a")])) (fun _ => "T") (some ⟨[], 0⟩)
        (fun _ => [65]) true).1 =
      ⟨(⟨[], 0⟩ : BIO).data ++
          (((logs (exFetcher 1 (Logs.ofList [(0, "a")])) (fun _ => "T")).1.map
            (encodeLine (fun _ => [65]))).flatten), 0⟩ :=
  ⟨rfl,
    (to_file_round_trip (exFetcher 1 (Logs.ofList [(0, "a")])) (fun _ => "T")
      (fun _ => [65]) ⟨[], 0⟩ rfl).1⟩

/-- Claim C9: a page holding strictly more than `page_limit` entries does
not trigger a follow-up request even with `follow_pagination` true — the
continuation fires only on exact equality — while all of the page's
entries are still accumulated and the fetch returns successfully. -/
theorem oversized_page_no_follow_up (f : Fetcher) (resp : Response)
    (rest : List PageResult) (q : String) (s : Int) (d : String)
    (h : f.query_limit < (_unpack_response f._logs resp).2.1) :
    (fetch_logs f (Except.ok resp :: rest) q s true d).2.1.length = 1
    ∧ (fetch_logs f (Except.ok resp :: rest) q s true d).1._logs =
        (_unpack_response f._logs resp).1
    ∧ (fetch_logs f (Except.ok resp :: rest) q s true d).2.2 = Except.ok () := by
  have hne : (_unpack_response f._logs resp).2.1 ≠ f.query_limit := by omega
  rw [fetch_logs]
  simp [hne]

/-- Claim C9 witness: a two-entry page against `page_limit = 1`. -/
theorem oversized_page_no_follow_up_witness :
    ((exFetcher 1 (Logs.ofList [])).query_limit <
      (_unpack_response (exFetcher 1 (Logs.ofList []))._logs
        [[(1, "a"), (2, "b")]]).2.1) ∧
    (fetch_logs (exFetcher 1 (Logs.ofList [])) [Except.ok [[(1, "a"), (2, "b")]]]
      "q" 0 true "forward").2.1.length = 1 :=
  ⟨by decide,
    (oversized_page_no_follow_up (exFetcher 1 (Logs.ofList []))
      [[(1, "a"), (2, "b")]] [] "q" 0 "forward" (by decide)).1⟩

/-- String append with a nonempty right part is nonempty. -/
lemma append_ne_empty (s t : String) (h : t.length ≠ 0) : s ++ t ≠ "" := by
  intro he
  apply h
  have hl := congrArg String.length he
  rw [String.length_append] at hl
  simp at hl
  omega

/-- Claim C10: `from_project` discards any caller-supplied `url` keyword
argument — its result does not depend on it — and the constructed
instance's URL is always the one derived from the project's resolved
secrets, so it never equals a caller-supplied URL that differs from the
derived one. -/
theorem from_project_discards_url (secrets : Secrets) (u : String)
    (df : String) (ql : Nat) (st : Int) (dps : DataParseStructure) :
    from_project secrets (some u) df ql st dps =
      from_project secrets none df ql st dps
    ∧ ∀ host f, lookupSecret secrets "loki_host" = some host →
        from_project secrets (some u) df ql st dps = Except.ok f →
        f.url = host ++ "/loki" ++ "/api/v1/query_range" := by
  refine ⟨rfl, ?_⟩
  intro host f hh hf
  have hne : (host ++ "/loki" ++ "/api/v1/query_range") ≠ "" := by
    rw [String.append_assoc]
    exact append_ne_empty host ("/loki" ++ "/api/v1/query_range") (by decide)
  rw [from_project] at hf
  simp only [make_url, hh] at hf
  rw [init] at hf
  simp only [if_neg hne] at hf
  rcases hf with hf
  simp at hf
  rw [← hf]

/-- Claim C10 witness: the discarded URL at a concrete constructor call. -/
theorem from_project_discards_url_witness :
    lookupSecret exSecrets "loki_host" = some "http://h" ∧
    from_project exSecrets (some "http://x") "%Y" 5000 1 DataParseStructure.list =
      Except.ok exF10 ∧
    exF10.url = "http://h" ++ "/loki" ++ "/api/v1/query_range" :=
  ⟨rfl, rfl,
    (from_project_discards_url exSecrets "http://x" "%Y" 5000 1
      DataParseStructure.list).2 "http://h" exF10 rfl rfl⟩

end Loki
